import Mathlib

/-!
Verification of the interrupt-descriptor-table and spinlock core of a small
bare-metal kernel (`src/interrupts.rs`, `src/essentials/mutex.rs`).

Machine integers are embedded as `Nat` with explicit truncation (`% 2 ^ w`)
where the Rust code performs casts.  The `bit_field` crate operations used by
the source (`set_bits`, `set_bit`) are embedded faithfully, including the
`assert!` that the value fits into the bit range: a failed assertion (a Rust
panic) is modelled as `none`.
-/

namespace RustKernel

/-- Model of `bit_field::BitField::set_bits(lo..=hi, v)` on a `w`-bit integer
`x`.  The crate asserts that `v` fits into the range (else it panics, here
`none`), then stores `(x & !mask) | (v << lo)` where `mask` selects bits
`lo..=hi`; `!` on a `w`-bit integer is modelled as xor with `2 ^ w - 1`. -/
def setBits (w lo hi x v : Nat) : Option Nat :=
  if v < 2 ^ (hi + 1 - lo) then
    some ((x &&& ((2 ^ w - 1) ^^^ ((2 ^ (hi + 1 - lo) - 1) <<< lo))) ||| (v <<< lo))
  else none

/-- Model of `bit_field::BitField::set_bit(i, b)` on a `w`-bit integer `x`:
`if b { x | (1 << i) } else { x & !(1 << i) }`. -/
def setBit (w i : Nat) (x : Nat) (b : Bool) : Nat :=
  if b then x ||| (1 <<< i) else x &&& ((2 ^ w - 1) ^^^ (1 <<< i))

/-- Decoder used to state round-trip properties: extract `len` bits starting
at bit `lo`. -/
def getBits (lo len x : Nat) : Nat := (x >>> lo) % 2 ^ len

/-- Decoder used to state round-trip properties: extract the bit at
position `i`. -/
def getBit (i x : Nat) : Bool := (x >>> i) % 2 == 1

/-- Clearing bits `lo..lo+len` of a `w`-bit integer with the complemented
mask splits the value into its low part (below `lo`) and high part (from
`lo + len` up). -/
theorem and_mask (w lo len s : Nat) (hs : s < 2 ^ w) (hw : lo + len ≤ w) :
    s &&& ((2 ^ w - 1) ^^^ ((2 ^ len - 1) <<< lo)) =
      2 ^ (lo + len) * (s / 2 ^ (lo + len)) + s % 2 ^ lo := by
  apply Nat.eq_of_testBit_eq
  intro j
  have hmod : s % 2 ^ lo < 2 ^ (lo + len) :=
    lt_of_lt_of_le (Nat.mod_lt _ (Nat.two_pow_pos lo))
      (Nat.pow_le_pow_right (by omega) (by omega))
  rw [Nat.testBit_mul_pow_two_add _ hmod j, Nat.testBit_and, Nat.testBit_xor,
    Nat.testBit_two_pow_sub_one, Nat.testBit_shiftLeft, Nat.testBit_two_pow_sub_one,
    Nat.testBit_mod_two_pow]
  by_cases h1 : j < lo
  · have : j < w := by omega
    simp [h1, this, Nat.not_le_of_lt h1, show j < lo + len by omega]
  · by_cases h2 : j < lo + len
    · simp [h1, h2, show j < w by omega, show lo ≤ j by omega, show j - lo < len by omega]
    · have hdiv : (s / 2 ^ (lo + len)).testBit (j - (lo + len)) = s.testBit j := by
        rw [← Nat.shiftRight_eq_div_pow, Nat.testBit_shiftRight]
        congr 1
        omega
      by_cases h3 : j < w
      · simp [h1, h2, h3, hdiv, show lo ≤ j by omega, show ¬(j - lo < len) by omega]
      · have hbit : s.testBit j = false :=
          Nat.testBit_lt_two_pow (lt_of_lt_of_le hs (Nat.pow_le_pow_right (by omega) (by omega)))

        simp [h1, h2, h3, hdiv, hbit]

/-- Inserting a value `v < 2 ^ len` at bit `lo` (by `or`) into an integer
whose bits `lo..lo+len` are clear acts as addition. -/
theorem or_insert (lo len v L H : Nat) (hv : v < 2 ^ len) (hL : L < 2 ^ lo) :
    (2 ^ (lo + len) * H + L) ||| (v <<< lo) =
      2 ^ (lo + len) * H + v * 2 ^ lo + L := by
  have hpow : (2 : Nat) ^ (lo + len) = 2 ^ lo * 2 ^ len := by rw [pow_add]
  have hmid : 2 ^ lo * v + L < 2 ^ (lo + len) := by
    have h1 : 2 ^ lo * v + L < 2 ^ lo * v + 2 ^ lo := by omega
    have h2 : 2 ^ lo * v + 2 ^ lo = 2 ^ lo * (v + 1) := by ring
    have h3 : 2 ^ lo * (v + 1) ≤ 2 ^ lo * 2 ^ len :=
      Nat.mul_le_mul_left _ (by omega)
    omega
  have hLlt : L < 2 ^ (lo + len) :=
    lt_of_lt_of_le hL (Nat.pow_le_pow_right (by omega) (by omega))
  rw [Nat.shiftLeft_eq]
  calc (2 ^ (lo + len) * H + L) ||| v * 2 ^ lo
      = (2 ^ (lo + len) * H ||| L) ||| v * 2 ^ lo := by
        rw [← Nat.mul_add_lt_is_or hLlt H]
    _ = 2 ^ (lo + len) * H ||| (L ||| v * 2 ^ lo) := Nat.lor_assoc _ _ _
    _ = 2 ^ (lo + len) * H ||| (2 ^ lo * v ||| L) := by
        rw [Nat.lor_comm L _, mul_comm v _]
    _ = 2 ^ (lo + len) * H ||| (2 ^ lo * v + L) := by
        rw [← Nat.mul_add_lt_is_or hL v]
    _ = 2 ^ (lo + len) * H + (2 ^ lo * v + L) := (Nat.mul_add_lt_is_or hmid H).symm
    _ = 2 ^ (lo + len) * H + v * 2 ^ lo + L := by ring

/-- Setting a single bit by `or`-ing in `1 <<< i` splits arithmetically,
regardless of whether the bit was already set. -/
theorem or_bit (i x : Nat) :
    x ||| (1 <<< i) = 2 ^ (i + 1) * (x / 2 ^ (i + 1)) + 2 ^ i + x % 2 ^ i := by
  apply Nat.eq_of_testBit_eq
  intro j
  have hb : 2 ^ i + x % 2 ^ i < 2 ^ (i + 1) := by
    have h1 : x % 2 ^ i < 2 ^ i := Nat.mod_lt x (Nat.two_pow_pos i)
    have h2 : (2 : Nat) ^ (i + 1) = 2 ^ i * 2 := pow_succ 2 i
    omega
  have h1bit : ∀ k, Nat.testBit 1 k = decide (k = 0) := by
    intro k
    cases k with
    | zero => simp
    | succ n => simp [Nat.testBit_succ]
  rw [add_assoc, Nat.testBit_mul_pow_two_add _ hb j, Nat.testBit_or,
    Nat.testBit_shiftLeft, h1bit]
  rcases Nat.lt_trichotomy j i with h1 | h1 | h1
  · rw [if_pos (show j < i + 1 by omega), Nat.testBit_two_pow_add_gt h1,
      Nat.testBit_mod_two_pow]
    simp [h1, Nat.not_le_of_lt h1]
  · subst h1
    have hlow : (x % 2 ^ j).testBit j = false :=
      Nat.testBit_lt_two_pow (Nat.mod_lt x (Nat.two_pow_pos j))
    rw [if_pos (by omega), Nat.testBit_two_pow_add_eq]
    simp [hlow]
  · have hdiv : (x / 2 ^ (i + 1)).testBit (j - (i + 1)) = x.testBit j := by
      rw [← Nat.shiftRight_eq_div_pow, Nat.testBit_shiftRight]
      congr 1
      omega
    rw [if_neg (show ¬ j < i + 1 by omega), hdiv]
    simp [show ¬ (j - i = 0) by omega]

/-! Selector (`src/interrupts.rs`, lines 7–51)

A `Selector` is a `u16`; `TableIndex` is the two-variant enum choosing
between the global and local descriptor tables. -/

/-- The `TableIndex` enum: `Gdt = 0`, `Ldt = 1`. -/
inductive TableIndex where
  | Gdt
  | Ldt
deriving BEq, DecidableEq

/-- The bit stored for a table indicator: `table_index == TableIndex::Ldt`. -/
def TableIndex.ldtBit : TableIndex → Bool
  | .Gdt => false
  | .Ldt => true

/-- `Selector::new()`: the all-zero selector. -/
def Selector.new : Nat := 0

/-- `Selector::set_rpl`: `self.0.set_bits(0..=1, rpl as u16)`. -/
def Selector.set_rpl (s rpl : Nat) : Option Nat := setBits 16 0 1 s rpl

/-- `Selector::set_table_index`: `self.0.set_bit(2, table_index == TableIndex::Ldt)`. -/
def Selector.set_table_index (s : Nat) (table_index : TableIndex) : Nat :=
  setBit 16 2 s (table_index == TableIndex.Ldt)

/-- `Selector::set_index`: `self.0.set_bits(3..=15, index)`. -/
def Selector.set_index (s index : Nat) : Option Nat := setBits 16 3 15 s index

/-- Arithmetic characterization of `set_rpl` on an in-range selector. -/
theorem set_rpl_char (s p : Nat) (hs : s < 65536) (hp : p < 4) :
    Selector.set_rpl s p = some (4 * (s / 4) + p) := by
  have hm := and_mask 16 0 2 s (by omega) (by omega)
  have ho := or_insert 0 2 p 0 (s / 4) (by omega) (by norm_num)
  show setBits 16 0 1 s p = _
  rw [setBits, if_pos (show p < 2 ^ (1 + 1 - 0) by norm_num; omega)]
  norm_num [Nat.mod_one] at hm ho ⊢
  rw [hm, ho]

/-- Arithmetic characterization of `set_table_index` on an in-range selector. -/
theorem set_table_index_char (s : Nat) (t : TableIndex) (hs : s < 65536) :
    Selector.set_table_index s t = 8 * (s / 8) + 4 * t.ldtBit.toNat + s % 4 := by
  cases t with
  | Gdt =>
    have hm := and_mask 16 2 1 s (by omega) (by omega)
    show setBit 16 2 s false = _
    rw [setBit, if_neg (by simp)]
    norm_num [TableIndex.ldtBit] at hm ⊢
    rw [hm]
  | Ldt =>
    have ho := or_bit 2 s
    show setBit 16 2 s true = _
    rw [setBit, if_pos rfl]
    norm_num [TableIndex.ldtBit] at ho ⊢
    rw [ho]

/-- Arithmetic characterization of `set_index` on an in-range selector. -/
theorem set_index_char (s idx : Nat) (hs : s < 65536) (hi : idx < 8192) :
    Selector.set_index s idx = some (idx * 8 + s % 8) := by
  have hm := and_mask 16 3 13 s (by omega) (by omega)
  have hzero : s / 65536 = 0 := by omega
  have ho := or_insert 3 13 idx (s % 8) 0 (by omega) (by omega)
  show setBits 16 3 15 s idx = _
  rw [setBits, if_pos (show idx < 2 ^ (15 + 1 - 3) by norm_num; omega)]
  norm_num [hzero] at hm ho ⊢
  rw [hm, ho]

/-- Apply a list of fallible builder operations in sequence, starting from a
given value.  Used to state the "chained in any order" claims. -/
def chainM : List (Nat → Option Nat) → Nat → Option Nat
  | [], s => some s
  | f :: fs, s => (f s).bind (chainM fs)

/-- The six orders in which the three selector builder operations
`set_rpl p`, `set_table_index t`, `set_index i` can be chained. -/
def selOrders (p : Nat) (t : TableIndex) (i : Nat) : List (List (Nat → Option Nat)) :=
  [[fun s => Selector.set_rpl s p, fun s => some (Selector.set_table_index s t),
    fun s => Selector.set_index s i],
   [fun s => Selector.set_rpl s p, fun s => Selector.set_index s i,
    fun s => some (Selector.set_table_index s t)],
   [fun s => some (Selector.set_table_index s t), fun s => Selector.set_rpl s p,
    fun s => Selector.set_index s i],
   [fun s => some (Selector.set_table_index s t), fun s => Selector.set_index s i,
    fun s => Selector.set_rpl s p],
   [fun s => Selector.set_index s i, fun s => Selector.set_rpl s p,
    fun s => some (Selector.set_table_index s t)],
   [fun s => Selector.set_index s i, fun s => some (Selector.set_table_index s t),
    fun s => Selector.set_rpl s p]]

/-- Unfolding a successful step of `chainM`. -/
theorem chainM_step (f : Nat → Option Nat) (fs : List (Nat → Option Nat)) (s v : Nat)
    (hf : f s = some v) : chainM (f :: fs) s = chainM fs v := by
  simp [chainM, hf]

/-- `chainM` on the empty list returns its accumulator. -/
theorem chainM_nil (s : Nat) : chainM [] s = some s := rfl

/-- `set_rpl`, with its result rewritten to any equal value. -/
theorem rpl_step (s p v : Nat) (hs : s < 65536) (hp : p < 4)
    (hv : 4 * (s / 4) + p = v) : Selector.set_rpl s p = some v := by
  rw [set_rpl_char s p hs hp, hv]

/-- `set_table_index` (wrapped in `some`), with its result rewritten to any
equal value. -/
theorem ti_step (s : Nat) (t : TableIndex) (v : Nat) (hs : s < 65536)
    (hv : 8 * (s / 8) + 4 * t.ldtBit.toNat + s % 4 = v) :
    (some (Selector.set_table_index s t) : Option Nat) = some v := by
  rw [set_table_index_char s t hs, hv]

/-- `set_index`, with its result rewritten to any equal value. -/
theorem ix_step (s idx v : Nat) (hs : s < 65536) (hi : idx < 8192)
    (hv : idx * 8 + s % 8 = v) : Selector.set_index s idx = some v := by
  rw [set_index_char s idx hs hi, hv]

/-- Every order of the three selector builder operations, started from
`Selector::new()`, produces the same packed value `p + 4*t + 8*i`. -/
theorem selChain_eval (p : Nat) (hp : p < 4) (t : TableIndex) (i : Nat) (hi : i < 8192) :
    ∀ l ∈ selOrders p t i,
      chainM l Selector.new = some (p + 4 * t.ldtBit.toNat + 8 * i) := by
  have htb : t.ldtBit.toNat ≤ 1 := by cases t <;> simp [TableIndex.ldtBit]
  intro l hl
  simp only [selOrders, List.mem_cons, List.not_mem_nil, or_false] at hl
  rcases hl with rfl | rfl | rfl | rfl | rfl | rfl
  · refine Eq.trans (chainM_step _ _ _ _ (rpl_step 0 p p (by omega) hp (by omega))) ?_
    refine Eq.trans (chainM_step _ _ _ _
      (ti_step p t (p + 4 * t.ldtBit.toNat) (by omega) (by omega))) ?_
    refine Eq.trans (chainM_step _ _ _ _ (ix_step (p + 4 * t.ldtBit.toNat) i
      (p + 4 * t.ldtBit.toNat + 8 * i) (by omega) hi (by omega))) ?_
    exact chainM_nil _
  · refine Eq.trans (chainM_step _ _ _ _ (rpl_step 0 p p (by omega) hp (by omega))) ?_
    refine Eq.trans (chainM_step _ _ _ _
      (ix_step p i (p + 8 * i) (by omega) hi (by omega))) ?_
    refine Eq.trans (chainM_step _ _ _ _ (ti_step (p + 8 * i) t
      (p + 4 * t.ldtBit.toNat + 8 * i) (by omega) (by omega))) ?_
    exact chainM_nil _
  · refine Eq.trans (chainM_step _ _ _ _
      (ti_step 0 t (4 * t.ldtBit.toNat) (by omega) (by omega))) ?_
    refine Eq.trans (chainM_step _ _ _ _ (rpl_step (4 * t.ldtBit.toNat) p
      (p + 4 * t.ldtBit.toNat) (by omega) hp (by omega))) ?_
    refine Eq.trans (chainM_step _ _ _ _ (ix_step (p + 4 * t.ldtBit.toNat) i
      (p + 4 * t.ldtBit.toNat + 8 * i) (by omega) hi (by omega))) ?_
    exact chainM_nil _
  · refine Eq.trans (chainM_step _ _ _ _
      (ti_step 0 t (4 * t.ldtBit.toNat) (by omega) (by omega))) ?_
    refine Eq.trans (chainM_step _ _ _ _ (ix_step (4 * t.ldtBit.toNat) i
      (4 * t.ldtBit.toNat + 8 * i) (by omega) hi (by omega))) ?_
    refine Eq.trans (chainM_step _ _ _ _ (rpl_step (4 * t.ldtBit.toNat + 8 * i) p
      (p + 4 * t.ldtBit.toNat + 8 * i) (by omega) hp (by omega))) ?_
    exact chainM_nil _
  · refine Eq.trans (chainM_step _ _ _ _
      (ix_step 0 i (8 * i) (by omega) hi (by omega))) ?_
    refine Eq.trans (chainM_step _ _ _ _
      (rpl_step (8 * i) p (p + 8 * i) (by omega) hp (by omega))) ?_
    refine Eq.trans (chainM_step _ _ _ _ (ti_step (p + 8 * i) t
      (p + 4 * t.ldtBit.toNat + 8 * i) (by omega) (by omega))) ?_
    exact chainM_nil _
  · refine Eq.trans (chainM_step _ _ _ _
      (ix_step 0 i (8 * i) (by omega) hi (by omega))) ?_
    refine Eq.trans (chainM_step _ _ _ _ (ti_step (8 * i) t
      (4 * t.ldtBit.toNat + 8 * i) (by omega) (by omega))) ?_
    refine Eq.trans (chainM_step _ _ _ _ (rpl_step (4 * t.ldtBit.toNat + 8 * i) p
      (p + 4 * t.ldtBit.toNat + 8 * i) (by omega) hp (by omega))) ?_
    exact chainM_nil _

/-- C2: for every privilege level `p < 4`, table indicator `t`, and index
`i < 8192`, chaining `set_rpl p`, `set_table_index t`, `set_index i` (in any
of the six orders, starting from `Selector::new()`) yields a 16-bit value
from which bits [1:0] decode to exactly `p`, bit [2] to exactly `t`, and
bits [15:3] to exactly `i`; moreover each setter writes only its designated
bit range. -/
theorem selector_builder_roundtrip :
    ∀ p, p < 4 → ∀ t : TableIndex, ∀ i, i < 8192 →
      (∀ l ∈ selOrders p t i,
        chainM l Selector.new = some (p + 4 * t.ldtBit.toNat + 8 * i) ∧
        getBits 0 2 (p + 4 * t.ldtBit.toNat + 8 * i) = p ∧
        (getBit 2 (p + 4 * t.ldtBit.toNat + 8 * i) = true ↔ t = TableIndex.Ldt) ∧
        getBits 3 13 (p + 4 * t.ldtBit.toNat + 8 * i) = i) ∧
      (∀ s v, s < 65536 → Selector.set_rpl s p = some v →
        v / 4 = s / 4 ∧ v < 65536) ∧
      (∀ s, s < 65536 → Selector.set_table_index s t % 4 = s % 4 ∧
        Selector.set_table_index s t / 8 = s / 8) ∧
      (∀ s v, s < 65536 → Selector.set_index s i = some v → v % 8 = s % 8) := by
  intro p hp t i hi
  have htb : t.ldtBit.toNat ≤ 1 := by cases t <;> simp [TableIndex.ldtBit]
  refine ⟨fun l hl => ⟨selChain_eval p hp t i hi l hl, ?_, ?_, ?_⟩, ?_, ?_, ?_⟩
  · simp only [getBits, Nat.shiftRight_eq_div_pow]
    omega
  · cases t with
    | Gdt =>
      simp only [getBit, TableIndex.ldtBit, Bool.toNat_false, Nat.shiftRight_eq_div_pow,
        beq_iff_eq, mul_zero, add_zero]
      constructor
      · intro h
        exact absurd h (by omega)
      · intro h
        exact absurd h (by decide)
    | Ldt =>
      simp only [getBit, TableIndex.ldtBit, Bool.toNat_true, Nat.shiftRight_eq_div_pow,
        beq_iff_eq, mul_one]
      constructor
      · intro _
        trivial
      · intro _
        omega
  · simp only [getBits, Nat.shiftRight_eq_div_pow]
    omega
  · intro s v hs hsv
    rw [set_rpl_char s p hs hp] at hsv
    simp only [Option.some.injEq] at hsv
    constructor <;> omega
  · intro s hs
    rw [set_table_index_char s t hs]
    constructor <;> omega
  · intro s v hs hsv
    rw [set_index_char s i hs hi] at hsv
    simp only [Option.some.injEq] at hsv
    omega

/-- Concrete instance of the selector round-trip claim at `p = 3`,
`t = Ldt`, `i = 5`, chained in the order `rpl`, `table_index`, `index`. -/
theorem selector_builder_roundtrip_witness :
    chainM [fun s => Selector.set_rpl s 3,
            fun s => some (Selector.set_table_index s TableIndex.Ldt),
            fun s => Selector.set_index s 5] Selector.new = some 47 ∧
    getBits 0 2 47 = 3 ∧ getBit 2 47 = true ∧ getBits 3 13 47 = 5 := by
  have h := ((selector_builder_roundtrip 3 (by norm_num) TableIndex.Ldt 5 (by norm_num)).1
    _ (List.mem_cons_self _ _))
  obtain ⟨h1, h2, h3, h4⟩ := h
  refine ⟨by simpa using h1, by simpa using h2, by simp at h3 ⊢; simpa using h3, by simpa using h4⟩

/-! TypeAttribute (`src/interrupts.rs`, lines 150–196)

The attribute byte of a gate entry is a `u8`; `GateType` and
`DescriptorPrivilageLevel` are the enums from the source (the source spells
"privilage"). -/

/-- The `GateType` enum with its source discriminant values. -/
inductive GateType where
  | Task32
  | Interrupt16
  | Trap16
  | Interrupt32
  | Trap32
deriving DecidableEq

/-- Discriminant of `GateType` (`gate as u8`). -/
def GateType.val : GateType → Nat
  | .Task32 => 5
  | .Interrupt16 => 6
  | .Trap16 => 7
  | .Interrupt32 => 14
  | .Trap32 => 15

/-- The `DescriptorPrivilageLevel` enum with its source discriminant values. -/
inductive DescriptorPrivilageLevel where
  | High
  | Medium
  | Low
deriving DecidableEq

/-- Discriminant of `DescriptorPrivilageLevel` (`dpl as u8`). -/
def DescriptorPrivilageLevel.val : DescriptorPrivilageLevel → Nat
  | .High => 0
  | .Medium => 1
  | .Low => 3

/-- `TypeAttribute::new()`: the zero attribute byte. -/
def TypeAttribute.new : Nat := 0

/-- `TypeAttribute::set_present`: `self.0.set_bit(7, present)`. -/
def TypeAttribute.set_present (a : Nat) (present : Bool) : Nat := setBit 8 7 a present

/-- `TypeAttribute::set_descriptor_privilage_level`: `self.0.set_bits(5..=6, dpl as u8)`. -/
def TypeAttribute.set_descriptor_privilage_level (a : Nat)
    (dpl : DescriptorPrivilageLevel) : Option Nat := setBits 8 5 6 a dpl.val

/-- `TypeAttribute::set_gate`: `self.0.set_bits(0..=4, gate as u8)`. -/
def TypeAttribute.set_gate (a : Nat) (gate : GateType) : Option Nat :=
  setBits 8 0 4 a gate.val

/-- Arithmetic characterization of `set_gate` on an in-range byte. -/
theorem set_gate_char (a : Nat) (g : GateType) (ha : a < 256) :
    TypeAttribute.set_gate a g = some (32 * (a / 32) + g.val) := by
  have hv : g.val < 32 := by cases g <;> decide
  have hm := and_mask 8 0 5 a (by omega) (by omega)
  have ho := or_insert 0 5 g.val 0 (a / 32) hv (by norm_num)
  show setBits 8 0 4 a g.val = _
  rw [setBits, if_pos (show g.val < 2 ^ (4 + 1 - 0) by cases g <;> decide)]
  norm_num [Nat.mod_one] at hm ho ⊢
  rw [hm, ho]

/-- Arithmetic characterization of `set_descriptor_privilage_level` on an
in-range byte. -/
theorem set_dpl_char (a : Nat) (d : DescriptorPrivilageLevel) (ha : a < 256) :
    TypeAttribute.set_descriptor_privilage_level a d =
      some (128 * (a / 128) + d.val * 32 + a % 32) := by
  have hv : d.val < 4 := by cases d <;> decide
  have hm := and_mask 8 5 2 a (by omega) (by omega)
  have ho := or_insert 5 2 d.val (a % 32) (a / 128) hv (by omega)
  show setBits 8 5 6 a d.val = _
  rw [setBits, if_pos (show d.val < 2 ^ (6 + 1 - 5) by cases d <;> decide)]
  norm_num at hm ho ⊢
  rw [hm, ho]

/-- Arithmetic characterization of `set_present` on an in-range byte. -/
theorem set_present_char (a : Nat) (b : Bool) (ha : a < 256) :
    TypeAttribute.set_present a b = 128 * b.toNat + a % 128 := by
  have hz : a / 256 = 0 := by omega
  cases b with
  | false =>
    have hm := and_mask 8 7 1 a (by omega) (by omega)
    show setBit 8 7 a false = _
    rw [setBit, if_neg (by simp)]
    norm_num [hz] at hm ⊢
    rw [hm]
  | true =>
    have ho := or_bit 7 a
    show setBit 8 7 a true = _
    rw [setBit, if_pos rfl]
    norm_num [hz] at ho ⊢
    rw [ho]

/-- The six orders in which the three attribute-byte setters
`set_gate g`, `set_descriptor_privilage_level d`, `set_present b` can be
chained. -/
def attrOrders (g : GateType) (d : DescriptorPrivilageLevel) (b : Bool) :
    List (List (Nat → Option Nat)) :=
  [[fun a => TypeAttribute.set_gate a g,
    fun a => TypeAttribute.set_descriptor_privilage_level a d,
    fun a => some (TypeAttribute.set_present a b)],
   [fun a => TypeAttribute.set_gate a g,
    fun a => some (TypeAttribute.set_present a b),
    fun a => TypeAttribute.set_descriptor_privilage_level a d],
   [fun a => TypeAttribute.set_descriptor_privilage_level a d,
    fun a => TypeAttribute.set_gate a g,
    fun a => some (TypeAttribute.set_present a b)],
   [fun a => TypeAttribute.set_descriptor_privilage_level a d,
    fun a => some (TypeAttribute.set_present a b),
    fun a => TypeAttribute.set_gate a g],
   [fun a => some (TypeAttribute.set_present a b),
    fun a => TypeAttribute.set_gate a g,
    fun a => TypeAttribute.set_descriptor_privilage_level a d],
   [fun a => some (TypeAttribute.set_present a b),
    fun a => TypeAttribute.set_descriptor_privilage_level a d,
    fun a => TypeAttribute.set_gate a g]]

/-- `set_gate`, with its result rewritten to any equal value. -/
theorem gate_step (s : Nat) (g : GateType) (v : Nat) (hs : s < 256)
    (hv : 32 * (s / 32) + g.val = v) : TypeAttribute.set_gate s g = some v := by
  rw [set_gate_char s g hs, hv]

/-- `set_descriptor_privilage_level`, with its result rewritten to any equal
value. -/
theorem dpl_step (s : Nat) (d : DescriptorPrivilageLevel) (v : Nat) (hs : s < 256)
    (hv : 128 * (s / 128) + d.val * 32 + s % 32 = v) :
    TypeAttribute.set_descriptor_privilage_level s d = some v := by
  rw [set_dpl_char s d hs, hv]

/-- `set_present` (wrapped in `some`), with its result rewritten to any equal
value. -/
theorem present_step (s : Nat) (b : Bool) (v : Nat) (hs : s < 256)
    (hv : 128 * b.toNat + s % 128 = v) :
    (some (TypeAttribute.set_present s b) : Option Nat) = some v := by
  rw [set_present_char s b hs, hv]

/-- Every order of the three attribute-byte setters applied to an arbitrary
byte `a < 256` produces the same packed byte `128*b + 32*d + g`. -/
theorem attrChain_eval (g : GateType) (d : DescriptorPrivilageLevel) (b : Bool)
    (a : Nat) (ha : a < 256) :
    ∀ l ∈ attrOrders g d b,
      chainM l a = some (128 * b.toNat + 32 * d.val + g.val) := by
  have hg : g.val ≤ 15 := by cases g <;> decide
  have hd : d.val ≤ 3 := by cases d <;> decide
  have hb : b.toNat ≤ 1 := by cases b <;> decide
  intro l hl
  simp only [attrOrders, List.mem_cons, List.not_mem_nil, or_false] at hl
  rcases hl with rfl | rfl | rfl | rfl | rfl | rfl
  · refine Eq.trans (chainM_step _ _ _ _
      (gate_step a g (32 * (a / 32) + g.val) ha rfl)) ?_
    refine Eq.trans (chainM_step _ _ _ _ (dpl_step (32 * (a / 32) + g.val) d
      (128 * (a / 128) + 32 * d.val + g.val) (by omega) (by omega))) ?_
    refine Eq.trans (chainM_step _ _ _ _
      (present_step (128 * (a / 128) + 32 * d.val + g.val) b
        (128 * b.toNat + 32 * d.val + g.val) (by omega) (by omega))) ?_
    exact chainM_nil _
  · refine Eq.trans (chainM_step _ _ _ _
      (gate_step a g (32 * (a / 32) + g.val) ha rfl)) ?_
    refine Eq.trans (chainM_step _ _ _ _
      (present_step (32 * (a / 32) + g.val) b
        (128 * b.toNat + 32 * (a / 32 % 4) + g.val) (by omega) (by omega))) ?_
    refine Eq.trans (chainM_step _ _ _ _
      (dpl_step (128 * b.toNat + 32 * (a / 32 % 4) + g.val) d
        (128 * b.toNat + 32 * d.val + g.val) (by omega) (by omega))) ?_
    exact chainM_nil _
  · refine Eq.trans (chainM_step _ _ _ _
      (dpl_step a d (128 * (a / 128) + d.val * 32 + a % 32) ha rfl)) ?_
    refine Eq.trans (chainM_step _ _ _ _
      (gate_step (128 * (a / 128) + d.val * 32 + a % 32) g
        (128 * (a / 128) + 32 * d.val + g.val) (by omega) (by omega))) ?_
    refine Eq.trans (chainM_step _ _ _ _
      (present_step (128 * (a / 128) + 32 * d.val + g.val) b
        (128 * b.toNat + 32 * d.val + g.val) (by omega) (by omega))) ?_
    exact chainM_nil _
  · refine Eq.trans (chainM_step _ _ _ _
      (dpl_step a d (128 * (a / 128) + d.val * 32 + a % 32) ha rfl)) ?_
    refine Eq.trans (chainM_step _ _ _ _
      (present_step (128 * (a / 128) + d.val * 32 + a % 32) b
        (128 * b.toNat + 32 * d.val + a % 32) (by omega) (by omega))) ?_
    refine Eq.trans (chainM_step _ _ _ _
      (gate_step (128 * b.toNat + 32 * d.val + a % 32) g
        (128 * b.toNat + 32 * d.val + g.val) (by omega) (by omega))) ?_
    exact chainM_nil _
  · refine Eq.trans (chainM_step _ _ _ _
      (present_step a b (128 * b.toNat + a % 128) ha rfl)) ?_
    refine Eq.trans (chainM_step _ _ _ _
      (gate_step (128 * b.toNat + a % 128) g
        (128 * b.toNat + 32 * (a % 128 / 32) + g.val) (by omega) (by omega))) ?_
    refine Eq.trans (chainM_step _ _ _ _
      (dpl_step (128 * b.toNat + 32 * (a % 128 / 32) + g.val) d
        (128 * b.toNat + 32 * d.val + g.val) (by omega) (by omega))) ?_
    exact chainM_nil _
  · refine Eq.trans (chainM_step _ _ _ _
      (present_step a b (128 * b.toNat + a % 128) ha rfl)) ?_
    refine Eq.trans (chainM_step _ _ _ _
      (dpl_step (128 * b.toNat + a % 128) d
        (128 * b.toNat + 32 * d.val + a % 32) (by omega) (by omega))) ?_
    refine Eq.trans (chainM_step _ _ _ _
      (gate_step (128 * b.toNat + 32 * d.val + a % 32) g
        (128 * b.toNat + 32 * d.val + g.val) (by omega) (by omega))) ?_
    exact chainM_nil _

/-- C3: for every valid gate kind `g`, descriptor privilege level `d`, and
present flag `b`, applying `set_gate g`, `set_descriptor_privilage_level d`,
and `set_present b` to any attribute byte, in any of the six orders, yields
a byte whose bits [3:0] decode to `g`, bits [6:5] decode to `d`, and bit [7]
decodes to `b` (with the enum discriminants injective, so the inputs are
recovered exactly); and each setter leaves the bits of the other two fields
unchanged. -/
theorem attribute_builder_roundtrip :
    ∀ g : GateType, ∀ d : DescriptorPrivilageLevel, ∀ b : Bool, ∀ a, a < 256 →
      (∀ l ∈ attrOrders g d b,
        chainM l a = some (128 * b.toNat + 32 * d.val + g.val) ∧
        getBits 0 4 (128 * b.toNat + 32 * d.val + g.val) = g.val ∧
        getBits 5 2 (128 * b.toNat + 32 * d.val + g.val) = d.val ∧
        getBit 7 (128 * b.toNat + 32 * d.val + g.val) = b) ∧
      (∀ g2 : GateType, g2.val = g.val → g2 = g) ∧
      (∀ d2 : DescriptorPrivilageLevel, d2.val = d.val → d2 = d) ∧
      (∀ s v, s < 256 → TypeAttribute.set_gate s g = some v →
        getBits 5 2 v = getBits 5 2 s ∧ getBit 7 v = getBit 7 s) ∧
      (∀ s v, s < 256 → TypeAttribute.set_descriptor_privilage_level s d = some v →
        getBits 0 4 v = getBits 0 4 s ∧ getBit 7 v = getBit 7 s) ∧
      (∀ s, s < 256 →
        getBits 0 4 (TypeAttribute.set_present s b) = getBits 0 4 s ∧
        getBits 5 2 (TypeAttribute.set_present s b) = getBits 5 2 s) := by
  intro g d b a ha
  have hg : g.val ≤ 15 := by cases g <;> decide
  have hd : d.val ≤ 3 := by cases d <;> decide
  have hb : b.toNat ≤ 1 := by cases b <;> decide
  refine ⟨fun l hl => ⟨attrChain_eval g d b a ha l hl, ?_, ?_, ?_⟩, ?_, ?_, ?_, ?_, ?_⟩
  · simp only [getBits, Nat.shiftRight_eq_div_pow]
    omega
  · simp only [getBits, Nat.shiftRight_eq_div_pow]
    omega
  · cases b with
    | false =>
      simp only [getBit, Bool.toNat_false, Nat.shiftRight_eq_div_pow, mul_zero, zero_add]
      rw [beq_eq_false_iff_ne]
      intro hcontra
      omega
    | true =>
      simp only [getBit, Bool.toNat_true, Nat.shiftRight_eq_div_pow, mul_one]
      rw [beq_iff_eq]
      omega
  · intro g2 hval
    cases g <;> cases g2 <;> revert hval <;> decide
  · intro d2 hval
    cases d <;> cases d2 <;> revert hval <;> decide
  · intro s v hs hsv
    rw [set_gate_char s g hs] at hsv
    simp only [Option.some.injEq] at hsv
    subst hsv
    constructor
    · simp only [getBits, Nat.shiftRight_eq_div_pow]
      omega
    · have h7 : (32 * (s / 32) + g.val) / 2 ^ 7 % 2 = s / 2 ^ 7 % 2 := by omega
      simp only [getBit, Nat.shiftRight_eq_div_pow, h7]
  · intro s v hs hsv
    rw [set_dpl_char s d hs] at hsv
    simp only [Option.some.injEq] at hsv
    subst hsv
    constructor
    · simp only [getBits, Nat.shiftRight_eq_div_pow]
      omega
    · have h7 : (128 * (s / 128) + d.val * 32 + s % 32) / 2 ^ 7 % 2 = s / 2 ^ 7 % 2 := by
        omega
      simp only [getBit, Nat.shiftRight_eq_div_pow, h7]
  · intro s hs
    rw [set_present_char s b hs]
    constructor
    · simp only [getBits, Nat.shiftRight_eq_div_pow]
      omega
    · simp only [getBits, Nat.shiftRight_eq_div_pow]
      omega

/-- Concrete instance of the attribute-byte round-trip claim: a 32-bit
interrupt gate, kernel privilege, present, built from the zero byte in the
order `gate`, `dpl`, `present`. -/
theorem attribute_builder_roundtrip_witness :
    chainM [fun a => TypeAttribute.set_gate a GateType.Interrupt32,
            fun a => TypeAttribute.set_descriptor_privilage_level a
              DescriptorPrivilageLevel.High,
            fun a => some (TypeAttribute.set_present a true)] 0 = some 142 ∧
    getBits 0 4 142 = 14 ∧ getBits 5 2 142 = 0 ∧ getBit 7 142 = true := by
  have h := ((attribute_builder_roundtrip GateType.Interrupt32
    DescriptorPrivilageLevel.High true 0 (by norm_num)).1 _ (List.mem_cons_self _ _))
  obtain ⟨h1, h2, h3, h4⟩ := h
  exact ⟨by simpa using h1, by simpa using h2, by simpa using h3, by simpa using h4⟩

/-! Gate Entry (`src/interrupts.rs`, lines 112–148)

`Entry` is the `#[repr(C, packed)]` 8-byte gate record.  Fields are embedded
as `Nat` (each a `u16`/`u8`); the hardware byte layout is captured by the
explicit serialization function below. -/

/-- The gate entry record: `offset_lower : u16`, `selector : u16 (Selector)`,
`zero : u8`, `type_attribute : u8 (TypeAttribute)`, `offset_higher : u16`,
in declaration order. -/
structure Entry where
  offset_lower : Nat
  selector : Nat
  zero : Nat
  type_attribute : Nat
  offset_higher : Nat
deriving DecidableEq

/-- `Entry::new(selector, handler)`: `pointer = handler as usize` (32-bit
target), `offset_lower = pointer as u16`, `offset_higher = (pointer >> 16)
as u16`, attribute byte from `TypeAttribute::new()`, reserved byte zero. -/
def Entry.new (selector handler : Nat) : Entry :=
  { selector := selector
    offset_lower := handler % 2 ^ 16
    offset_higher := (handler >>> 16) % 2 ^ 16
    type_attribute := TypeAttribute.new
    zero := 0 }

/-- `Entry::missing()`: the absent-entry sentinel, all fields zero. -/
def Entry.missing : Entry :=
  { selector := Selector.new
    offset_lower := 0
    offset_higher := 0
    type_attribute := TypeAttribute.new
    zero := 0 }

/-- Byte serialization of the `#[repr(C, packed)]` entry on the little-endian
32-bit target: `offset_lower`, `selector`, `zero`, `type_attribute`,
`offset_higher` in order, multi-byte fields little-endian, no padding. -/
def Entry.serialize (e : Entry) : List Nat :=
  [e.offset_lower % 256, e.offset_lower / 256 % 256,
   e.selector % 256, e.selector / 256 % 256,
   e.zero % 256, e.type_attribute % 256,
   e.offset_higher % 256, e.offset_higher / 256 % 256]

/-- C1: for every selector `s` and 32-bit handler address `a`, the entry
built by `Entry::new(s, a)` serializes to exactly the 8 bytes
`[a&0xFF, (a>>8)&0xFF, s_lo, s_hi, 0x00, attr, (a>>16)&0xFF, (a>>24)&0xFF]`
with no padding, where the reserved byte is zero and the attribute byte is
the default `TypeAttribute::new() = 0` (present bit clear, gate kind unset,
privilege level 0). -/
theorem entry_new_serialization (s a : Nat) (hs : s < 65536) (ha : a < 4294967296) :
    Entry.serialize (Entry.new s a) =
      [a &&& 255, (a >>> 8) &&& 255, s &&& 255, (s >>> 8) &&& 255,
       0, TypeAttribute.new, (a >>> 16) &&& 255, (a >>> 24) &&& 255] ∧
    (Entry.serialize (Entry.new s a)).length = 8 ∧
    TypeAttribute.new = 0 ∧
    getBit 7 TypeAttribute.new = false ∧
    getBits 0 4 TypeAttribute.new = 0 ∧
    getBits 5 2 TypeAttribute.new = 0 := by
  have h255 : ∀ x : Nat, x &&& 255 = x % 256 := by
    intro x
    have h := Nat.and_pow_two_sub_one_eq_mod x 8
    norm_num at h
    exact h
  refine ⟨?_, rfl, rfl, by decide, by decide, by decide⟩
  simp only [Entry.serialize, Entry.new, TypeAttribute.new, h255,
    Nat.shiftRight_eq_div_pow, List.cons.injEq, and_true]
  refine ⟨?_, ?_, ?_, ?_, ?_, ?_, ?_, ?_⟩ <;> first | trivial | omega

/-- Concrete instance of the entry-serialization claim: for the handler
address `0xAABBCCDD` and selector `8` the bytes are
`[0xDD, 0xCC, 0x08, 0x00, 0x00, 0x00, 0xBB, 0xAA]`. -/
theorem entry_new_serialization_witness :
    Entry.serialize (Entry.new 8 2864434397) = [221, 204, 8, 0, 0, 0, 187, 170] := by
  have h := (entry_new_serialization 8 2864434397 (by norm_num) (by norm_num)).1
  rw [h]
  decide

/-! InterruptDescriptorTable and its load pointer
(`src/interrupts.rs`, lines 64–110) -/

/-- The interrupt descriptor table: a 16-entry array of gate entries. -/
structure InterruptDescriptorTable where
  entries : List Entry

/-- `InterruptDescriptorTable::new()`: 16 copies of `Entry::missing()`. -/
def InterruptDescriptorTable.new : InterruptDescriptorTable :=
  ⟨List.replicate 16 Entry.missing⟩

/-- `core::mem::size_of::<InterruptDescriptorTable>()`: 16 packed 8-byte
entries, 128 bytes. -/
def idtSizeBytes : Nat := 16 * 8

/-- The `#[repr(C, packed)]` descriptor table pointer: 16-bit `size`, then
`base : usize`. -/
structure DescriptorTablePointer where
  size : Nat
  base : Nat

/-- The pointer computed by `InterruptDescriptorTable::load`:
`size = (size_of::<Self>() - 1) as u16` and `base = self as *const _ as
usize`, the address of the table itself (passed in as `base`). -/
def InterruptDescriptorTable.loadPointer (base : Nat) : DescriptorTablePointer :=
  { size := (idtSizeBytes - 1) % 2 ^ 16, base := base }

/-- Byte serialization of the `#[repr(C, packed)]` pointer on the
little-endian 32-bit target: 16-bit size, then 32-bit base, no padding. -/
def DescriptorTablePointer.serialize (p : DescriptorTablePointer) : List Nat :=
  [p.size % 256, p.size / 256 % 256,
   p.base % 256, p.base / 256 % 256, p.base / 2 ^ 16 % 256, p.base / 2 ^ 24 % 256]

/-- C4: the pointer computed by `load()` has size field `8*N - 1` with
`N = 16` entries (127), base field equal to the address of the table itself, and is
laid out as the 16-bit size immediately followed by the base address in 6
bytes with no padding. -/
theorem load_pointer_layout (base : Nat) (hb : base < 4294967296) :
    (InterruptDescriptorTable.loadPointer base).size = 8 * 16 - 1 ∧
    (InterruptDescriptorTable.loadPointer base).size = 127 ∧
    InterruptDescriptorTable.new.entries.length = 16 ∧
    (∀ e : Entry, e.serialize.length = 8) ∧
    (InterruptDescriptorTable.loadPointer base).base = base ∧
    (InterruptDescriptorTable.loadPointer base).serialize =
      [127, 0, base % 256, base / 256 % 256, base / 2 ^ 16 % 256, base / 2 ^ 24 % 256] ∧
    (InterruptDescriptorTable.loadPointer base).serialize.length = 6 := by
  refine ⟨rfl, rfl, rfl, fun e => rfl, rfl, ?_, rfl⟩
  simp [DescriptorTablePointer.serialize, InterruptDescriptorTable.loadPointer, idtSizeBytes]

/-- Concrete instance of the pointer-layout claim at base address
`0x00105000`. -/
theorem load_pointer_layout_witness :
    (InterruptDescriptorTable.loadPointer 1069056).size = 127 ∧
    (InterruptDescriptorTable.loadPointer 1069056).serialize =
      [127, 0, 0, 80, 16, 0] := by
  have h := load_pointer_layout 1069056 (by norm_num)
  refine ⟨h.2.1, ?_⟩
  rw [h.2.2.2.2.2.1]
  decide

/-- C5: a freshly constructed table has every one of its 16 entries equal to
the missing sentinel, whose fields (offset halves, selector, reserved byte,
attribute byte) are all zero and whose present bit is clear. -/
theorem table_new_all_missing :
    InterruptDescriptorTable.new.entries.length = 16 ∧
    (∀ k, k < 16 → InterruptDescriptorTable.new.entries[k]? = some Entry.missing) ∧
    Entry.missing.offset_lower = 0 ∧ Entry.missing.selector = 0 ∧
    Entry.missing.zero = 0 ∧ Entry.missing.type_attribute = 0 ∧
    Entry.missing.offset_higher = 0 ∧
    getBit 7 Entry.missing.type_attribute = false := by
  refine ⟨rfl, ?_, rfl, rfl, rfl, rfl, rfl, by decide⟩
  intro k hk
  have hent : InterruptDescriptorTable.new.entries = List.replicate 16 Entry.missing := rfl
  rw [hent, List.getElem?_replicate_of_lt hk]

/-- Concrete instance of the fresh-table claim at vector 4. -/
theorem table_new_all_missing_witness :
    InterruptDescriptorTable.new.entries[4]? = some Entry.missing :=
  table_new_all_missing.2.1 4 (by norm_num)

/-- `InterruptDescriptorTable::set_handler(entry_index, handler)`:
computes `Selector::new().set_index(get_code_segment())` (the CS register
value is passed in as `cs`; `set_index` panics if it does not fit 13 bits),
then writes `Entry::new(selector, handler)` into `self.0[entry_index]`
(a Rust index-out-of-bounds panic if `entry_index ≥ 16`, before any entry is
modified), and returns `&mut self.0[entry_index].type_attribute` — modelled
as the attribute byte of the written entry alongside the updated table.  A panic
is `none`. -/
def InterruptDescriptorTable.set_handler (t : InterruptDescriptorTable)
    (cs entry_index handler : Nat) : Option (InterruptDescriptorTable × Nat) :=
  (Selector.set_index Selector.new cs).bind fun selector =>
    if entry_index < t.entries.length then
      some (⟨t.entries.set entry_index (Entry.new selector handler)⟩,
        (Entry.new selector handler).type_attribute)
    else none

/-- C6: overwriting a vector twice leaves exactly the encoding of the second
handler at that vector, every other entry unchanged, and each call returns
the attribute byte of the freshly written entry. -/
theorem set_handler_overwrite (t : InterruptDescriptorTable) (cs v h1 h2 : Nat)
    (hlen : t.entries.length = 16) (hcs : cs < 8192) (hv : v < 16) :
    ∃ t1 r1 t2 r2,
      Selector.set_index Selector.new cs = some (cs * 8) ∧
      InterruptDescriptorTable.set_handler t cs v h1 = some (t1, r1) ∧
      InterruptDescriptorTable.set_handler t1 cs v h2 = some (t2, r2) ∧
      t2.entries[v]? = some (Entry.new (cs * 8) h2) ∧
      (∀ j, j < 16 → j ≠ v → t2.entries[j]? = t.entries[j]?) ∧
      r1 = (Entry.new (cs * 8) h1).type_attribute ∧
      r2 = (Entry.new (cs * 8) h2).type_attribute ∧
      r2 = TypeAttribute.new := by
  have hsel : Selector.set_index Selector.new cs = some (cs * 8) := by
    show Selector.set_index 0 cs = _
    rw [set_index_char 0 cs (by omega) hcs]
    norm_num
  refine ⟨⟨t.entries.set v (Entry.new (cs * 8) h1)⟩,
    (Entry.new (cs * 8) h1).type_attribute,
    ⟨t.entries.set v (Entry.new (cs * 8) h2)⟩,
    (Entry.new (cs * 8) h2).type_attribute, hsel, ?_, ?_, ?_, ?_, rfl, rfl, rfl⟩
  · simp only [InterruptDescriptorTable.set_handler, hsel, Option.some_bind]
    rw [if_pos (show v < t.entries.length by omega)]
  · simp only [InterruptDescriptorTable.set_handler, hsel, Option.some_bind,
      List.length_set]
    rw [if_pos (show v < t.entries.length by omega)]
    simp only [List.set_set]
  · simp only [List.getElem?_set_self (show v < t.entries.length by omega)]
  · intro j hj hne
    simp only [List.getElem?_set_ne (Ne.symm hne)]

/-- Concrete instance of the overwrite claim: two handlers installed at
vector 3 of a fresh table with CS = 8. -/
theorem set_handler_overwrite_witness :
    ∃ t1 r1 t2 r2,
      Selector.set_index Selector.new 8 = some 64 ∧
      InterruptDescriptorTable.set_handler InterruptDescriptorTable.new 8 3 4096
        = some (t1, r1) ∧
      InterruptDescriptorTable.set_handler t1 8 3 8192 = some (t2, r2) ∧
      t2.entries[3]? = some (Entry.new 64 8192) ∧
      (∀ j, j < 16 → j ≠ 3 →
        t2.entries[j]? = InterruptDescriptorTable.new.entries[j]?) ∧
      r1 = (Entry.new 64 4096).type_attribute ∧
      r2 = (Entry.new 64 8192).type_attribute ∧
      r2 = TypeAttribute.new :=
  set_handler_overwrite InterruptDescriptorTable.new 8 3 4096 8192
    rfl (by norm_num) (by norm_num)

/-- C7: out-of-range construction inputs abort instead of being truncated:
`set_handler` with a vector index at or beyond the 16-entry table panics
(returning no updated table, so no entry is modified), and
`Selector::set_index` with an index that does not fit 13 bits panics in the
`set_bits` range assertion rather than masking. -/
theorem out_of_range_aborts :
    (∀ (t : InterruptDescriptorTable) (cs v h : Nat), t.entries.length = 16 →
      16 ≤ v → InterruptDescriptorTable.set_handler t cs v h = none) ∧
    (∀ s i, 8192 ≤ i → Selector.set_index s i = none) := by
  constructor
  · intro t cs v h hlen hv
    cases hsel : Selector.set_index Selector.new cs with
    | none =>
      simp only [InterruptDescriptorTable.set_handler, hsel, Option.none_bind]
    | some sel =>
      simp only [InterruptDescriptorTable.set_handler, hsel, Option.some_bind]
      rw [if_neg (show ¬ v < t.entries.length by omega)]
  · intro s i hi
    rw [Selector.set_index, setBits, if_neg (by norm_num; omega)]

/-- Concrete instance of the abort claim: vector 16 on a fresh table, and
index 8192 on a fresh selector. -/
theorem out_of_range_aborts_witness :
    InterruptDescriptorTable.set_handler InterruptDescriptorTable.new 8 16 4096 = none ∧
    Selector.set_index Selector.new 8192 = none :=
  ⟨out_of_range_aborts.1 InterruptDescriptorTable.new 8 16 4096 rfl (by norm_num),
   out_of_range_aborts.2 Selector.new 8192 (by norm_num)⟩

/-! The static IDT and `IDT::init` (`src/interrupts.rs`, lines 65–77;
`src/main.rs`, `_start`) -/

/-- The `static IDT` table: the const block evaluates
`InterruptDescriptorTable::new()` and returns it unchanged; `set_handler` is
never called on it (it is not even a `static mut`). -/
def IDT.staticIDT : InterruptDescriptorTable := InterruptDescriptorTable.new

/-- `IDT::init()`: calls `IDT.load()`, which commits the static table at its
address `base` to the CPU via `lidt`.  Modelled as the pair (table contents
at the moment of the load, descriptor table pointer). -/
def IDT.init (base : Nat) : InterruptDescriptorTable × DescriptorTablePointer :=
  (IDT.staticIDT, InterruptDescriptorTable.loadPointer base)

/-- C10: the table committed by `IDT::init()` is still all-missing: it has
exactly 16 entries (not 256), each equal to the all-zero, present-clear
sentinel, and the load pointer describes those 16 entries (size 127, not
`8*256 - 1`) at the address of the table. -/
theorem init_loads_all_missing_table (base : Nat) (hb : base < 4294967296) :
    (IDT.init base).1.entries.length = 16 ∧
    (IDT.init base).1.entries.length ≠ 256 ∧
    (∀ k, k < 16 → (IDT.init base).1.entries[k]? = some Entry.missing) ∧
    Entry.missing = ⟨0, 0, 0, 0, 0⟩ ∧
    getBit 7 Entry.missing.type_attribute = false ∧
    (IDT.init base).2.size = 127 ∧
    (IDT.init base).2.size ≠ 8 * 256 - 1 ∧
    (IDT.init base).2.base = base := by
  refine ⟨rfl,
    by norm_num [IDT.init, IDT.staticIDT, InterruptDescriptorTable.new],
    ?_, rfl, by decide, rfl,
    by norm_num [IDT.init, InterruptDescriptorTable.loadPointer, idtSizeBytes], rfl⟩
  intro k hk
  have hent : (IDT.init base).1.entries = List.replicate 16 Entry.missing := rfl
  rw [hent, List.getElem?_replicate_of_lt hk]

/-- Concrete instance of the init claim at base address `0x00105000`,
vector 0. -/
theorem init_loads_all_missing_table_witness :
    (IDT.init 1069056).1.entries.length = 16 ∧
    (IDT.init 1069056).1.entries[0]? = some Entry.missing ∧
    (IDT.init 1069056).2.size = 127 :=
  ⟨(init_loads_all_missing_table 1069056 (by norm_num)).1,
   (init_loads_all_missing_table 1069056 (by norm_num)).2.2.1 0 (by norm_num),
   (init_loads_all_missing_table 1069056 (by norm_num)).2.2.2.2.2.1⟩

/-! Spinlock mutex (`src/essentials/mutex.rs`)

The mutex owns an `AtomicBool` lock flag; a `MutexGuard` holds a mutable
reference to the payload.  The observable state of one mutex is embedded as
the flag value plus the number of live guards; the exposed operations become
a step relation on that state. -/

/-- The `core::sync::atomic::Ordering` values. -/
inductive AtomicOrdering where
  | relaxed
  | acquire
  | release
  | acqRel
  | seqCst
deriving DecidableEq

/-- Observable state of one mutex: the atomic `lock` flag and the number of
live `MutexGuard` values handed out for it. -/
structure MutexState where
  flag : Bool
  guards : Nat
deriving DecidableEq

/-- `Mutex::new(inner)`: `lock: AtomicBool::new(false)`, no guard exists. -/
def Mutex.new : MutexState := ⟨false, 0⟩

/-- Steps generated by `Mutex::lock` and by `Drop for MutexGuard` (guard
destruction), the operations that create and destroy guards. -/
inductive MutexStep : MutexState → MutexState → Prop where
  /-- `lock()`: the `swap(true, Ordering::Acquire)` returns `false`, the
  busy-wait loop exits, and a guard to the payload is returned. -/
  | lock (s : MutexState) (h : s.flag = false) : MutexStep s ⟨true, s.guards + 1⟩
  /-- `lock()` spinning: the swap returns `true` (and stores `true` again);
  the loop retries with no observable change. -/
  | lockSpin (s : MutexState) (h : s.flag = true) : MutexStep s s
  /-- `Drop for MutexGuard`: a live guard is destroyed on scope exit;
  `self.lock.store(false, Ordering::Release)`. -/
  | dropGuard (s : MutexState) (h : 0 < s.guards) : MutexStep s ⟨false, s.guards - 1⟩

/-- Steps of all exposed mutex operations: those of `MutexStep` plus the
public `Mutex::unlock`, which stores `false` into the flag without
consuming any guard. -/
inductive MutexOpStep : MutexState → MutexState → Prop where
  | ofStep {s s2 : MutexState} (h : MutexStep s s2) : MutexOpStep s s2
  | unlock (s : MutexState) : MutexOpStep s ⟨false, s.guards⟩

/-- C8 counterexample: the claim is false for the code as written, because
`Mutex::unlock` is itself an exposed operation: the interleaving
`lock(); unlock(); lock()` reaches a state with two simultaneously live
guards, so it is not the case that every state reachable through exposed
operations has at most one live guard. -/
theorem mutex_two_guards_counterexample :
    ¬ (∀ s : MutexState, Relation.ReflTransGen MutexOpStep Mutex.new s →
        s.guards ≤ 1) := by
  intro h
  have s1 : MutexOpStep ⟨false, 0⟩ ⟨true, 1⟩ := .ofStep (.lock ⟨false, 0⟩ rfl)
  have s2 : MutexOpStep ⟨true, 1⟩ ⟨false, 1⟩ := .unlock ⟨true, 1⟩
  have s3 : MutexOpStep ⟨false, 1⟩ ⟨true, 2⟩ := .ofStep (.lock ⟨false, 1⟩ rfl)
  have htrace : Relation.ReflTransGen MutexOpStep Mutex.new ⟨true, 2⟩ :=
    Relation.ReflTransGen.head s1
      (Relation.ReflTransGen.head s2 (Relation.ReflTransGen.single s3))
  exact absurd (h ⟨true, 2⟩ htrace) (by decide)

/-- C8 (amended): restricted to the guard-based operations — `lock`
returning a guard and guard destruction, excluding direct `Mutex::unlock`
calls — every reachable state has at most one live guard, and the payload
is reachable through a guard only while the lock flag is held. -/
theorem mutex_guard_invariant (s : MutexState)
    (h : Relation.ReflTransGen MutexStep Mutex.new s) :
    s.guards ≤ 1 ∧ (0 < s.guards → s.flag = true) := by
  induction h with
  | refl => exact ⟨by decide, by decide⟩
  | @tail b c hab hbc ih =>
    obtain ⟨ih1, ih2⟩ := ih
    cases hbc with
    | lock hflag =>
      have hz : b.guards = 0 := by
        by_contra hnz
        have hft := ih2 (by omega)
        rw [hflag] at hft
        cases hft
      refine ⟨?_, fun _ => rfl⟩
      show b.guards + 1 ≤ 1
      omega
    | lockSpin hflag => exact ⟨ih1, ih2⟩
    | dropGuard hg =>
      refine ⟨?_, fun hcontra => ?_⟩
      · show b.guards - 1 ≤ 1
        omega
      · exact absurd (show (0 : Nat) < b.guards - 1 from hcontra) (by omega)

/-- Concrete instance of the amended guard invariant, after a single
successful `lock()`. -/
theorem mutex_guard_invariant_witness :
    (⟨true, 1⟩ : MutexState).guards ≤ 1 ∧
    (0 < (⟨true, 1⟩ : MutexState).guards → (⟨true, 1⟩ : MutexState).flag = true) :=
  mutex_guard_invariant ⟨true, 1⟩
    (Relation.ReflTransGen.single (MutexStep.lock ⟨false, 0⟩ rfl))

/-- The value stored into the lock flag by `Drop for MutexGuard`. -/
def MutexGuard.dropStoredValue : Bool := false

/-- The atomic ordering of the store in `Drop for MutexGuard`:
`Ordering::Release`. -/
def MutexGuard.dropOrdering : AtomicOrdering := .release

/-- The state transformation performed by `Drop for MutexGuard`: the single
unconditional `self.lock.store(false, Ordering::Release)` (one fewer guard
is live afterwards). -/
def MutexGuard.dropRun (s : MutexState) : MutexState := ⟨false, s.guards - 1⟩

/-- One `swap(true, Ordering::Acquire)` attempt inside `Mutex::lock`:
it acquires the lock exactly when the flag was clear. -/
def Mutex.lockTry (s : MutexState) : Option MutexState :=
  if s.flag then none else some ⟨true, s.guards + 1⟩

/-- C9: destroying a `MutexGuard` always stores `false` into the lock flag
with release ordering — the `Drop` impl is a single unconditional store, so
this holds on every exit path that destroys the guard, from any prior state
— and a subsequent `lock()` on the same mutex then succeeds on its first
swap attempt. -/
theorem guard_drop_releases (s : MutexState) :
    (MutexGuard.dropRun s).flag = false ∧
    MutexGuard.dropStoredValue = false ∧
    MutexGuard.dropOrdering = AtomicOrdering.release ∧
    Mutex.lockTry (MutexGuard.dropRun s) =
      some ⟨true, (MutexGuard.dropRun s).guards + 1⟩ :=
  ⟨rfl, rfl, rfl, rfl⟩

end RustKernel
